import Mathlib

/-!
Verification of the pallet-packing engine in
`src/app/algorithms/PalletPiler/piler.py`.

The engine builds a CP-SAT constraint model (`solve_single_pallet`) and a
multi-pallet driver loop (`solve_multiple_pallets`).  We embed the model
shallowly: an `Assign` records a value for every decision variable the
Python code creates, and `Feasible` is the conjunction of every constraint
the code posts (variable domains included).  The underlying solver is a
complete search over exactly these constraints, so any solution it returns
with status OPTIMAL or FEASIBLE satisfies `Feasible`; the post-processing
that turns a solution into the returned `(packed, unpacked)` pair is
embedded executably (`extractResult`), and `solve_single_pallet_rel`
relates inputs to every result the Python function can return (a feasible
solution, or the zero-placement result produced on INFEASIBLE/UNKNOWN
status).  The driver loop is embedded as the inductive relation `Runs`.

All quantities are integers (`Int`), as in the CP-SAT model; the only
floating point in the source is the constant `MAX_H_TO_BASE_RATIO = 3.0`,
whose comparisons against products of integers are exact, so it is
embedded as the integer 3.
-/

/-- Items as constructed by the `Item` class (`piler.py`, lines 6-29).
`volume` and `dims` are derived fields, written out where used. -/
structure Item where
  id : String
  name : String
  w : Int
  d : Int
  h : Int
  weight : Int
  picking_order : Int
  allow_tipping : Bool
  is_fragile : Bool
  type_id : String
  location : String
deriving DecidableEq, Repr, Inhabited

/-- Fallback computation of `type_id` from `id` in `Item.__init__`:
split on the last dash (`id.rsplit(-, 1)[0]`), or the whole id when it
contains no dash. -/
def typeIdFallback (id : String) : String :=
  let parts := id.splitOn "-"
  if parts.length ≤ 1 then id else String.intercalate "-" parts.dropLast

/-- Values of the per-item decision variables created in
`solve_single_pallet` (lines 68-99 and 120-128). -/
structure ItemVars where
  is_packed : Bool
  x : Int
  y : Int
  z : Int
  spin : Bool
  orient0 : Bool
  orient1 : Bool
  orient2 : Bool
  gap_fill : Bool
  current_w : Int
  current_d : Int
  current_h : Int
  current_area : Int
  on_ground : Bool
deriving DecidableEq, Repr

/-- Values of the per-ordered-pair variables created in the collision and
support section (lines 159-221).  `stacked` is the `i_stacked_on_j`
variable, created only for pairs of equal `type_id`; for other pairs the
field is unconstrained. -/
structure PairVars where
  left : Bool
  right : Bool
  behind : Bool
  front : Bool
  below : Bool
  above : Bool
  stacked : Bool
  x_supported : Bool
  y_supported : Bool
  tol_w : Int
  tol_d : Int
  is_valid_base : Bool
deriving DecidableEq, Repr

/-- Values of the clustering helper variables `c_dx, c_dy, c_dz`
(lines 105-107), created for an item whose name was seen earlier. -/
structure ClusterVars where
  c_dx : Int
  c_dy : Int
  c_dz : Int
deriving DecidableEq, Repr

/-- A complete assignment of the model variables.  Indices beyond the item
count are unconstrained junk. -/
structure Assign where
  iv : Nat → ItemVars
  pv : Nat → Nat → PairVars
  cv : Nat → ClusterVars
  max_z : Int

/-- The per-item constraints from the variable-creation loop
(lines 68-99): variable domains, one orientation when packed, the
upright-first rule for `gap_fill`, and the aspect-ratio physics checks. -/
def itemCons (W D H : Int) (it : Item) (v : ItemVars) : Prop :=
  (0 ≤ v.x ∧ v.x ≤ W) ∧ (0 ≤ v.y ∧ v.y ≤ D) ∧ (0 ≤ v.z ∧ v.z ≤ H) ∧
  (v.is_packed = true →
    (if v.orient0 then (1:Int) else 0) + (if v.orient1 then 1 else 0) +
      (if v.orient2 then 1 else 0) = 1) ∧
  (if it.allow_tipping then
    (v.gap_fill = false → v.orient0 = true) ∧
    (v.gap_fill = true → v.is_packed = true)
  else v.orient0 = true) ∧
  (3 * min it.w it.d < it.h → v.orient0 = false) ∧
  (it.allow_tipping = true →
    (3 * min it.h it.d < it.w → v.orient1 = false) ∧
    (3 * min it.w it.h < it.d → v.orient2 = false))

instance (W D H : Int) (it : Item) (v : ItemVars) : Decidable (itemCons W D H it v) := by
  unfold itemCons; infer_instance

/-- Domains of the effective-dimension variables `current_w`, `current_d`,
`current_h` and `current_area` as created on lines 124-128. -/
def dimDomCons (it : Item) (v : ItemVars) : Prop :=
  (0 ≤ v.current_w ∧ v.current_w ≤ max it.w (max it.d it.h)) ∧
  (0 ≤ v.current_d ∧ v.current_d ≤ max it.w (max it.d it.h)) ∧
  (0 ≤ v.current_h ∧ v.current_h ≤ max it.w (max it.d it.h)) ∧
  (min (it.w * it.d) (min (it.h * it.d) (it.w * it.h)) ≤ v.current_area ∧
    v.current_area ≤ max (it.w * it.d) (max (it.h * it.d) (it.w * it.h)))

instance (it : Item) (v : ItemVars) : Decidable (dimDomCons it v) := by
  unfold dimDomCons; infer_instance

/-- The reified dimension table for the upright orientation
(lines 131-136). -/
def dimMap0Cons (it : Item) (v : ItemVars) : Prop :=
  (v.orient0 = true → v.spin = false → v.current_w = it.w ∧ v.current_d = it.d) ∧
  (v.orient0 = true → v.spin = true → v.current_w = it.d ∧ v.current_d = it.w) ∧
  (v.orient0 = true → v.current_h = it.h ∧ v.current_area = it.w * it.d)

instance (it : Item) (v : ItemVars) : Decidable (dimMap0Cons it v) := by
  unfold dimMap0Cons; infer_instance

/-- The reified dimension table for orientation 1, original width
vertical (lines 138-143). -/
def dimMap1Cons (it : Item) (v : ItemVars) : Prop :=
  (v.orient1 = true → v.spin = false → v.current_w = it.h ∧ v.current_d = it.d) ∧
  (v.orient1 = true → v.spin = true → v.current_w = it.d ∧ v.current_d = it.h) ∧
  (v.orient1 = true → v.current_h = it.w ∧ v.current_area = it.h * it.d)

instance (it : Item) (v : ItemVars) : Decidable (dimMap1Cons it v) := by
  unfold dimMap1Cons; infer_instance

/-- The reified dimension table for orientation 2, original depth
vertical (lines 145-150). -/
def dimMap2Cons (it : Item) (v : ItemVars) : Prop :=
  (v.orient2 = true → v.spin = false → v.current_w = it.w ∧ v.current_d = it.h) ∧
  (v.orient2 = true → v.spin = true → v.current_w = it.h ∧ v.current_d = it.w) ∧
  (v.orient2 = true → v.current_h = it.d ∧ v.current_area = it.w * it.h)

instance (it : Item) (v : ItemVars) : Decidable (dimMap2Cons it v) := by
  unfold dimMap2Cons; infer_instance

/-- The reified six-way orientation table (lines 131-150). -/
def dimMapCons (it : Item) (v : ItemVars) : Prop :=
  dimMap0Cons it v ∧ dimMap1Cons it v ∧ dimMap2Cons it v

instance (it : Item) (v : ItemVars) : Decidable (dimMapCons it v) := by
  unfold dimMapCons; infer_instance

/-- The dimension-mapping constraints (lines 121-150). -/
def dimCons (it : Item) (v : ItemVars) : Prop :=
  dimDomCons it v ∧ dimMapCons it v

instance (it : Item) (v : ItemVars) : Decidable (dimCons it v) := by
  unfold dimCons; infer_instance

/-- The boundary constraints (lines 152-156), enforced only when the item
is packed, together with the `max_z` lower bound. -/
def boundCons (W D H mz : Int) (v : ItemVars) : Prop :=
  v.is_packed = true →
    v.x + v.current_w ≤ W ∧ v.y + v.current_d ≤ D ∧ v.z + v.current_h ≤ H ∧
    v.z + v.current_h ≤ mz

instance (W D H mz : Int) (v : ItemVars) : Decidable (boundCons W D H mz v) := by
  unfold boundCons; infer_instance

/-- The clustering constraints for an item `i` whose `name` was last seen
at index `prev` (lines 102-116): domains of the distance variables and the
absolute-difference bounds, enforced when both items are packed. -/
def clusterCons (W D H : Int) (vi vp : ItemVars) (c : ClusterVars) : Prop :=
  (0 ≤ c.c_dx ∧ c.c_dx ≤ W) ∧ (0 ≤ c.c_dy ∧ c.c_dy ≤ D) ∧ (0 ≤ c.c_dz ∧ c.c_dz ≤ H) ∧
  (vi.is_packed = true → vp.is_packed = true →
    vi.x - vp.x ≤ c.c_dx ∧ vp.x - vi.x ≤ c.c_dx ∧
    vi.y - vp.y ≤ c.c_dy ∧ vp.y - vi.y ≤ c.c_dy ∧
    vi.z - vp.z ≤ c.c_dz ∧ vp.z - vi.z ≤ c.c_dz)

instance (W D H : Int) (vi vp : ItemVars) (c : ClusterVars) :
    Decidable (clusterCons W D H vi vp c) := by
  unfold clusterCons; infer_instance

/-- The reified axis separations and the non-overlap big-or for an
ordered pair `(i, j)` (lines 165-179). -/
def sepCons (vi vj : ItemVars) (p : PairVars) : Prop :=
  (p.left = true → vi.x + vi.current_w ≤ vj.x) ∧
  (p.right = true → vj.x + vj.current_w ≤ vi.x) ∧
  (p.behind = true → vi.y + vi.current_d ≤ vj.y) ∧
  (p.front = true → vj.y + vj.current_d ≤ vi.y) ∧
  (p.below = true → vi.z + vi.current_h ≤ vj.z) ∧
  (p.above = true → vj.z + vj.current_h ≤ vi.z) ∧
  (vi.is_packed = true → vj.is_packed = true →
    p.left = true ∨ p.right = true ∨ p.behind = true ∨ p.front = true ∨
    p.below = true ∨ p.above = true)

instance (vi vj : ItemVars) (p : PairVars) : Decidable (sepCons vi vj p) := by
  unfold sepCons; infer_instance

/-- The picking-order, fragility and same-type stacking restrictions for
an ordered pair (lines 181-199). -/
def orderCons (iti itj : Item) (p : PairVars) : Prop :=
  (iti.picking_order < itj.picking_order → p.above = false) ∧
  (itj.picking_order < iti.picking_order → p.below = false) ∧
  (itj.is_fragile = true → p.above = false) ∧
  (iti.is_fragile = true → p.below = false) ∧
  (iti.type_id = itj.type_id →
    (p.stacked = true → p.above = true) ∧ (p.stacked = false → p.above = false))

instance (iti itj : Item) (p : PairVars) : Decidable (orderCons iti itj p) := by
  unfold orderCons; infer_instance

/-- The support logic for an ordered pair (lines 201-221): the 5%
overhang tolerances (`AddDivisionEquality` is integer division, exact on
the non-negative operands it receives here), the reified footprint
conditions, and the `is_valid_base` definition with the ghost-support
implication `is_valid_base -> is_packed[j]`. -/
def suppCons (W D : Int) (vi vj : ItemVars) (p : PairVars) : Prop :=
  (0 ≤ p.tol_w ∧ p.tol_w ≤ W) ∧ (0 ≤ p.tol_d ∧ p.tol_d ≤ D) ∧
  p.tol_w = vi.current_w * 5 / 100 ∧
  p.tol_d = vi.current_d * 5 / 100 ∧
  (p.x_supported = true →
    vj.x - p.tol_w ≤ vi.x ∧ vi.x + vi.current_w ≤ vj.x + vj.current_w + p.tol_w) ∧
  (p.y_supported = true →
    vj.y - p.tol_d ≤ vi.y ∧ vi.y + vi.current_d ≤ vj.y + vj.current_d + p.tol_d) ∧
  (p.is_valid_base = true →
    p.above = true ∧ p.x_supported = true ∧ p.y_supported = true ∧
    vi.z = vj.z + vj.current_h ∧ vj.is_packed = true)

instance (W D : Int) (vi vj : ItemVars) (p : PairVars) :
    Decidable (suppCons W D vi vj p) := by
  unfold suppCons; infer_instance

/-- All constraints posted for an ordered pair `(i, j)` of distinct items
(lines 162-221). -/
def pairCons (W D : Int) (iti itj : Item) (vi vj : ItemVars) (p : PairVars) : Prop :=
  sepCons vi vj p ∧ orderCons iti itj p ∧ suppCons W D vi vj p

instance (W D : Int) (iti itj : Item) (vi vj : ItemVars) (p : PairVars) :
    Decidable (pairCons W D iti itj vi vj p) := by
  unfold pairCons; infer_instance

/-- The per-item support closing (lines 223-225): `on_ground` forces
`z = 0`, and a packed item is on the ground or has some valid base. -/
def supportClose (n : Nat) (a : Assign) (i : Nat) : Prop :=
  ((a.iv i).on_ground = true → (a.iv i).z = 0) ∧
  ((a.iv i).is_packed = true →
    (a.iv i).on_ground = true ∨
    ∃ j : Fin n, (j : Nat) ≠ i ∧ (a.pv i (j : Nat)).is_valid_base = true)

instance (n : Nat) (a : Assign) (i : Nat) : Decidable (supportClose n a i) := by
  unfold supportClose; infer_instance

/-- Index of the most recent earlier item with the same name, mirroring
the `last_seen_index_by_name` bookkeeping of lines 102-118. -/
def lastSeen (items : List Item) (i : Fin items.length) : Option Nat :=
  (List.range (i : Nat)).reverse.find? (fun j =>
    match items.get? j with
    | some it => it.name == (items.get i).name
    | none => false)

/-- Helper for stating a constraint about an optional previous index. -/
def OptAll (P : Nat → Prop) : Option Nat → Prop
  | none => True
  | some x => P x

instance (P : Nat → Prop) [DecidablePred P] : (o : Option Nat) → Decidable (OptAll P o)
  | none => isTrue trivial
  | some x => inferInstanceAs (Decidable (P x))

/-- The complete constraint model built by `solve_single_pallet` for the
given item list and pallet dimensions: the conjunction of every
constraint the Python code posts (the objective on lines 227-259 only
guides the search and restricts no assignment, so it does not appear). -/
def Feasible (items : List Item) (W D H : Int) (a : Assign) : Prop :=
  (0 ≤ a.max_z ∧ a.max_z ≤ H) ∧
  (∀ i : Fin items.length,
    itemCons W D H (items.get i) (a.iv (i : Nat)) ∧
    dimCons (items.get i) (a.iv (i : Nat)) ∧
    boundCons W D H a.max_z (a.iv (i : Nat)) ∧
    OptAll (fun prev => clusterCons W D H (a.iv (i : Nat)) (a.iv prev) (a.cv (i : Nat)))
      (lastSeen items i) ∧
    supportClose items.length a (i : Nat)) ∧
  (∀ i j : Fin items.length, (i : Nat) ≠ (j : Nat) →
    pairCons W D (items.get i) (items.get j) (a.iv (i : Nat)) (a.iv (j : Nat))
      (a.pv (i : Nat) (j : Nat)))

instance (items : List Item) (W D H : Int) (a : Assign) :
    Decidable (Feasible items W D H a) := by
  unfold Feasible; infer_instance

/-- A record of the per-item dictionary appended to `packed_items_data`
(lines 274-288). -/
structure PlacedItem where
  id : String
  name : String
  type_id : String
  location : String
  picking_order : Int
  x : Int
  y : Int
  z : Int
  w : Int
  h : Int
  d : Int
  weight : Int
  tipped : Bool
deriving DecidableEq, Repr

/-- Builds the output record for a packed item from the solution values,
as on lines 274-288; `tipped` is the negation of the upright literal. -/
def placedOf (it : Item) (v : ItemVars) : PlacedItem :=
  { id := it.id, name := it.name, type_id := it.type_id, location := it.location,
    picking_order := it.picking_order, x := v.x, y := v.y, z := v.z,
    w := v.current_w, h := v.current_h, d := v.current_d, weight := it.weight,
    tipped := !v.orient0 }

/-- The `(z, y, x)` lexicographic key used to sort `packed_items_data`
(line 292). -/
def zyxLe (p q : PlacedItem) : Prop :=
  p.z < q.z ∨ (p.z = q.z ∧ (p.y < q.y ∨ (p.y = q.y ∧ p.x ≤ q.x)))

instance : DecidableRel zyxLe := fun p q => by unfold zyxLe; infer_instance

/-- The single pass over `enumerate(items)` of lines 272-290, building the
packed records and the unpacked indices; `s` is the index of the head of
the remaining suffix. -/
def extractGo (a : Assign) : Nat → List Item → List PlacedItem × List Nat
  | _, [] => ([], [])
  | s, it :: rest =>
    let pr := extractGo a (s + 1) rest
    if (a.iv s).is_packed then (placedOf it (a.iv s) :: pr.1, pr.2)
    else (pr.1, s :: pr.2)

/-- The value `(packed_items_data, unpacked_indices)` returned by
`solve_single_pallet` from a solution with status OPTIMAL or FEASIBLE
(lines 271-292): the single extraction pass followed by the `(z, y, x)`
sort of the packed records. -/
def extractResult (items : List Item) (a : Assign) : List PlacedItem × List Nat :=
  ((extractGo a 0 items).1.insertionSort zyxLe, (extractGo a 0 items).2)

/-- Relates a call of `solve_single_pallet` to every pair it can return
(lines 261-297).  With status OPTIMAL or FEASIBLE the CP-SAT solution
satisfies every posted constraint, so the result is `extractResult` of
some assignment satisfying `Feasible`; with any other status (INFEASIBLE,
or UNKNOWN on timeout) the function returns no placements and all
indices as unpacked. -/
def solve_single_pallet_rel (items : List Item) (W D H : Int)
    (res : List PlacedItem × List Nat) : Prop :=
  (∃ a : Assign, Feasible items W D H a ∧ res = extractResult items a) ∨
  res = ([], List.range items.length)

/-- The list comprehension `[remaining_items[i] for i in unpacked_indices]`
of line 309 (every index produced by the solver is in range, so the
partial lookup drops nothing). -/
def select (rem : List Item) (idxs : List Nat) : List Item :=
  idxs.filterMap fun i => rem.get? i

/-- One entry of the `all_pallets` result list (line 308). -/
structure Pallet where
  pallet_id : Nat
  items : List PlacedItem
deriving DecidableEq, Repr

/-- The sort key of line 301: `picking_order` ascending, base area `w*d`
descending, `name` ascending, compared lexicographically as in a Python
tuple. -/
def keyLe (a b : Item) : Prop :=
  a.picking_order < b.picking_order ∨
  (a.picking_order = b.picking_order ∧
    (b.w * b.d < a.w * a.d ∨ (a.w * a.d = b.w * b.d ∧ a.name ≤ b.name)))

instance : DecidableRel keyLe := fun a b => by unfold keyLe; infer_instance

/-- The in-place stable sort `items.sort(key=...)` of line 301, modelled
as the sorted list the driver works on from then on (the caller's list
object holds exactly this reordering after the call; the `Item` elements
themselves are untouched). -/
def sortItems (items : List Item) : List Item :=
  items.insertionSort keyLe

/-- The driver loop of `solve_multiple_pallets` (lines 305-311).
`Runs W D H rem k out fin` holds when the loop, entered with remaining
items `rem` and next pallet number `k`, can append the pallet list `out`
and exit with final remaining list `fin` (`fin = []` means normal
termination; a non-empty `fin` records the items dropped by the
zero-placement `break` of line 307). -/
inductive Runs (W D H : Int) : List Item → Nat → List Pallet → List Item → Prop where
  | done (k : Nat) : Runs W D H [] k [] []
  | crit (rem : List Item) (k : Nat) (u : List Nat) :
      rem ≠ [] → solve_single_pallet_rel rem W D H ([], u) →
      Runs W D H rem k [] rem
  | step (rem : List Item) (k : Nat) (p : List PlacedItem) (u : List Nat)
      (out : List Pallet) (fin : List Item) :
      rem ≠ [] → solve_single_pallet_rel rem W D H (p, u) → p ≠ [] →
      Runs W D H (select rem u) (k + 1) out fin →
      Runs W D H rem k ({ pallet_id := k, items := p } :: out) fin

/-- Relates a call of `solve_multiple_pallets` (lines 299-311) to every
pallet list it can return: the input is first sorted in place by `keyLe`
(line 301), then the loop runs starting from pallet number 1. -/
def solve_multiple_pallets_rel (items : List Item) (W D H : Int)
    (out : List Pallet) : Prop :=
  ∃ fin : List Item, Runs W D H (sortItems items) 1 out fin

/-- The items left unpacked by a solution, in input order: the executable
companion of the index list returned by `extractGo`. -/
def unpackedGo (a : Assign) : Nat → List Item → List Item
  | _, [] => []
  | s, it :: rest =>
    if (a.iv s).is_packed then unpackedGo a (s + 1) rest
    else it :: unpackedGo a (s + 1) rest

lemma unpackedGo_sublist (a : Assign) :
    ∀ (l : List Item) (s : Nat), List.Sublist (unpackedGo a s l) l := by
  intro l
  induction l with
  | nil => intro s; simp [unpackedGo]
  | cons it rest ih =>
    intro s
    by_cases hp : (a.iv s).is_packed
    · simpa [unpackedGo, hp] using (ih (s + 1)).cons it
    · simpa [unpackedGo, hp] using (ih (s + 1)).cons₂ it

lemma select_extractGo (a : Assign) (full : List Item) :
    ∀ (l : List Item) (s : Nat), (∀ k, l.get? k = full.get? (s + k)) →
      select full (extractGo a s l).2 = unpackedGo a s l := by
  intro l
  induction l with
  | nil => intro s _; simp [extractGo, unpackedGo, select]
  | cons it rest ih =>
    intro s hcompat
    have hrest : ∀ k, rest.get? k = full.get? (s + 1 + k) := by
      intro k
      have h := hcompat (k + 1)
      have harith : s + (k + 1) = s + 1 + k := by omega
      rw [harith] at h
      simpa using h
    have hs : full[s]? = some it := by
      have h := hcompat 0
      simp only [Nat.add_zero] at h
      simpa [List.get?_eq_getElem?] using h.symm
    by_cases hp : (a.iv s).is_packed
    · simp [extractGo, unpackedGo, hp, ih (s + 1) hrest]
    · have h2 := ih (s + 1) hrest
      simp only [select, List.get?_eq_getElem?] at h2 ⊢
      simp [extractGo, unpackedGo, hp, List.filterMap_cons, hs, h2]

lemma extractGo_unpackedGo_perm (a : Assign) :
    ∀ (l : List Item) (s : Nat),
      List.Perm
        ((extractGo a s l).1.map (fun p => p.id) ++
          (unpackedGo a s l).map (fun it => it.id))
        (l.map (fun it => it.id)) := by
  intro l
  induction l with
  | nil => intro s; simp [extractGo, unpackedGo]
  | cons it rest ih =>
    intro s
    by_cases hp : (a.iv s).is_packed
    · simpa [extractGo, unpackedGo, hp, placedOf] using (ih (s + 1)).cons it.id
    · have hmid : List.Perm
          ((extractGo a (s + 1) rest).1.map (fun p => p.id) ++
            it.id :: (unpackedGo a (s + 1) rest).map (fun x => x.id))
          (it.id :: ((extractGo a (s + 1) rest).1.map (fun p => p.id) ++
            (unpackedGo a (s + 1) rest).map (fun x => x.id))) := List.perm_middle
      have hgoal := hmid.trans ((ih (s + 1)).cons it.id)
      simpa [extractGo, unpackedGo, hp] using hgoal

lemma select_range_aux (full : List Item) :
    ∀ (l : List Item) (s : Nat), (∀ k, l.get? k = full.get? (s + k)) →
      select full (List.range' s l.length) = l := by
  intro l
  induction l with
  | nil => intro s _; simp [select]
  | cons it rest ih =>
    intro s hcompat
    have hrest : ∀ k, rest.get? k = full.get? (s + 1 + k) := by
      intro k
      have h := hcompat (k + 1)
      have harith : s + (k + 1) = s + 1 + k := by omega
      rw [harith] at h
      simpa using h
    have hs : full[s]? = some it := by
      have h := hcompat 0
      simp only [Nat.add_zero] at h
      simpa [List.get?_eq_getElem?] using h.symm
    have h2 := ih (s + 1) hrest
    simp only [select, List.get?_eq_getElem?] at h2 ⊢
    simp [List.range'_succ, List.filterMap_cons, hs, h2]

lemma select_range (l : List Item) : select l (List.range l.length) = l := by
  rw [List.range_eq_range']
  exact select_range_aux l l 0 (fun k => by simp)

lemma mem_extractGo (a : Assign) :
    ∀ (l : List Item) (s : Nat) (p : PlacedItem), p ∈ (extractGo a s l).1 →
      ∃ k : Fin l.length, (a.iv (s + (k : Nat))).is_packed = true ∧
        p = placedOf (l.get k) (a.iv (s + (k : Nat))) := by
  intro l
  induction l with
  | nil => intro s p hp; simp [extractGo] at hp
  | cons it rest ih =>
    intro s p hp
    by_cases hpk : (a.iv s).is_packed
    · simp [extractGo, hpk] at hp
      rcases hp with hp | hp
      · exact ⟨⟨0, by simp⟩, by simpa using hpk, by simpa using hp⟩
      · obtain ⟨k, hk1, hk2⟩ := ih (s + 1) p hp
        refine ⟨⟨(k : Nat) + 1, by simp [k.isLt]⟩, ?_, ?_⟩
        · have harith : s + ((k : Nat) + 1) = s + 1 + (k : Nat) := by omega
          rw [harith]; exact hk1
        · have harith : s + ((k : Nat) + 1) = s + 1 + (k : Nat) := by omega
          rw [harith]; simpa using hk2
    · simp [extractGo, hpk] at hp
      obtain ⟨k, hk1, hk2⟩ := ih (s + 1) p hp
      refine ⟨⟨(k : Nat) + 1, by simp [k.isLt]⟩, ?_, ?_⟩
      · have harith : s + ((k : Nat) + 1) = s + 1 + (k : Nat) := by omega
        rw [harith]; exact hk1
      · have harith : s + ((k : Nat) + 1) = s + 1 + (k : Nat) := by omega
        rw [harith]; simpa using hk2

lemma mem_extractResult (items : List Item) (a : Assign) (p : PlacedItem)
    (hp : p ∈ (extractResult items a).1) :
    ∃ i : Fin items.length, (a.iv (i : Nat)).is_packed = true ∧
      p = placedOf (items.get i) (a.iv (i : Nat)) := by
  have hmem : p ∈ (extractGo a 0 items).1 :=
    ((List.perm_insertionSort zyxLe (extractGo a 0 items).1).mem_iff).mp hp
  obtain ⟨k, hk1, hk2⟩ := mem_extractGo a items 0 p hmem
  exact ⟨k, by simpa using hk1, by simpa using hk2⟩

lemma packed_mem_extractGo (a : Assign) :
    ∀ (l : List Item) (s : Nat) (k : Fin l.length),
      (a.iv (s + (k : Nat))).is_packed = true →
      placedOf (l.get k) (a.iv (s + (k : Nat))) ∈ (extractGo a s l).1 := by
  intro l
  induction l with
  | nil => intro s k; exact absurd k.isLt (by simp)
  | cons it rest ih =>
    intro s k hk
    rcases k with ⟨kv, hkv⟩
    cases kv with
    | zero =>
      have hk0 : (a.iv s).is_packed = true := by simpa using hk
      simp [extractGo, hk0]
    | succ m =>
      have hm : m < rest.length := by simpa using hkv
      have harith : s + (m + 1) = s + 1 + m := by omega
      have hk2 : (a.iv (s + 1 + m)).is_packed = true := by rw [← harith]; simpa using hk
      have hmem := ih (s + 1) ⟨m, hm⟩ hk2
      by_cases hpk : (a.iv s).is_packed
      · simp only [extractGo, hpk, if_true]
        right
        rw [harith] at *
        simpa using hmem
      · simp only [extractGo, hpk, if_false]
        rw [harith] at *
        simpa using hmem

lemma packed_mem_extractResult (items : List Item) (a : Assign)
    (i : Fin items.length) (hi : (a.iv (i : Nat)).is_packed = true) :
    placedOf (items.get i) (a.iv (i : Nat)) ∈ (extractResult items a).1 := by
  have hmem := packed_mem_extractGo a items 0 i (by simpa using hi)
  exact ((List.perm_insertionSort zyxLe (extractGo a 0 items).1).mem_iff).mpr
    (by simpa using hmem)

lemma some_orient (v : ItemVars)
    (hsum : (if v.orient0 then (1 : Int) else 0) + (if v.orient1 then 1 else 0) +
      (if v.orient2 then 1 else 0) = 1) :
    v.orient0 = true ∨ v.orient1 = true ∨ v.orient2 = true := by
  cases h0 : v.orient0 <;> cases h1 : v.orient1 <;> cases h2 : v.orient2 <;> simp_all

lemma current_pos (it : Item) (v : ItemVars) (hdim : dimCons it v)
    (hor : v.orient0 = true ∨ v.orient1 = true ∨ v.orient2 = true)
    (hw : 0 < it.w) (hd : 0 < it.d) (hh : 0 < it.h) :
    0 < v.current_w ∧ 0 < v.current_d ∧ 0 < v.current_h := by
  obtain ⟨hdom, hm0, hm1, hm2⟩ := hdim
  rcases hor with ho | ho | ho
  · obtain ⟨r1, r2, r3⟩ := hm0
    obtain ⟨hch, _⟩ := r3 ho
    cases hs : v.spin
    · obtain ⟨hcw, hcd⟩ := r1 ho hs
      exact ⟨by omega, by omega, by omega⟩
    · obtain ⟨hcw, hcd⟩ := r2 ho hs
      exact ⟨by omega, by omega, by omega⟩
  · obtain ⟨r1, r2, r3⟩ := hm1
    obtain ⟨hch, _⟩ := r3 ho
    cases hs : v.spin
    · obtain ⟨hcw, hcd⟩ := r1 ho hs
      exact ⟨by omega, by omega, by omega⟩
    · obtain ⟨hcw, hcd⟩ := r2 ho hs
      exact ⟨by omega, by omega, by omega⟩
  · obtain ⟨r1, r2, r3⟩ := hm2
    obtain ⟨hch, _⟩ := r3 ho
    cases hs : v.spin
    · obtain ⟨hcw, hcd⟩ := r1 ho hs
      exact ⟨by omega, by omega, by omega⟩
    · obtain ⟨hcw, hcd⟩ := r2 ho hs
      exact ⟨by omega, by omega, by omega⟩

instance : IsTotal Item keyLe where
  total := by
    intro a b
    unfold keyLe
    rcases lt_trichotomy a.picking_order b.picking_order with h | h | h
    · exact Or.inl (Or.inl h)
    · rcases lt_trichotomy (a.w * a.d) (b.w * b.d) with h2 | h2 | h2
      · exact Or.inr (Or.inr ⟨h.symm, Or.inl h2⟩)
      · rcases le_total a.name b.name with hn | hn
        · exact Or.inl (Or.inr ⟨h, Or.inr ⟨h2, hn⟩⟩)
        · exact Or.inr (Or.inr ⟨h.symm, Or.inr ⟨h2.symm, hn⟩⟩)
      · exact Or.inl (Or.inr ⟨h, Or.inl h2⟩)
    · exact Or.inr (Or.inl h)

instance : IsTrans Item keyLe where
  trans := by
    intro a b c hab hbc
    unfold keyLe at hab hbc ⊢
    rcases hab with h | ⟨he, h2⟩
    · rcases hbc with g | ⟨ge, _⟩
      · exact Or.inl (h.trans g)
      · exact Or.inl (by omega)
    · rcases hbc with g | ⟨ge, g2⟩
      · exact Or.inl (by omega)
      · refine Or.inr ⟨he.trans ge, ?_⟩
        rcases h2 with ha | ⟨hae, hname⟩
        · rcases g2 with ga | ⟨gae, _⟩
          · exact Or.inl (by omega)
          · exact Or.inl (by omega)
        · rcases g2 with ga | ⟨gae, gname⟩
          · exact Or.inl (by omega)
          · exact Or.inr ⟨by omega, hname.trans gname⟩

/-- Item ids of a list of input items. -/
def itemIds (l : List Item) : List String := l.map fun it => it.id

/-- Item ids across all pallets of a driver result, in order. -/
def palletIds (out : List Pallet) : List String :=
  ((out.map Pallet.items).flatten).map fun p => p.id

lemma runs_ids_perm (W D H : Int) {rem : List Item} {k : Nat}
    {out : List Pallet} {fin : List Item} (h : Runs W D H rem k out fin) :
    List.Perm (palletIds out ++ itemIds fin) (itemIds rem) := by
  induction h with
  | done k => simp [palletIds, itemIds]
  | crit rem k u hne hrel => simp [palletIds, itemIds]
  | step rem k p u out fin hne hrel hpne hrun ih =>
    rcases hrel with ⟨a, hfeas, heq⟩ | heq
    · have hp : p = (extractGo a 0 rem).1.insertionSort zyxLe := by
        have := congrArg Prod.fst heq
        simpa [extractResult] using this
      have hu : u = (extractGo a 0 rem).2 := by
        have := congrArg Prod.snd heq
        simpa [extractResult] using this
      have hsel : select rem u = unpackedGo a 0 rem := by
        rw [hu]
        exact select_extractGo a rem rem 0 (fun k => by simp)
      have hperm1 : List.Perm (p.map fun q => q.id)
          ((extractGo a 0 rem).1.map fun q => q.id) := by
        rw [hp]
        exact (List.perm_insertionSort zyxLe (extractGo a 0 rem).1).map _
      have hmain : List.Perm ((p.map fun q => q.id) ++ itemIds (select rem u))
          (itemIds rem) := by
        rw [hsel]
        exact ((hperm1.append_right _).trans (extractGo_unpackedGo_perm a rem 0))
      have hgoal : List.Perm ((p.map fun q => q.id) ++ (palletIds out ++ itemIds fin))
          (itemIds rem) := ((List.Perm.append_left _ ih).trans hmain)
      simpa [palletIds, itemIds, List.append_assoc] using hgoal
    · exact absurd (by simpa using congrArg Prod.fst heq) hpne

/-- An item that must stay upright but whose height violates the aspect
limit receives both `orient0 = 1` (line 88) and `orient0 = 0` (line 94),
so the whole model is infeasible no matter what else is in the input. -/
lemma not_feasible_of_upright_conflict (items : List Item) (W D H : Int)
    (i : Fin items.length)
    (hnt : (items.get i).allow_tipping = false)
    (htall : 3 * min (items.get i).w (items.get i).d < (items.get i).h) :
    ∀ a : Assign, ¬ Feasible items W D H a := by
  intro a hfeas
  obtain ⟨_, hitems, _⟩ := hfeas
  obtain ⟨hic, _⟩ := hitems i
  obtain ⟨_, _, _, _, htip, hasp, _⟩ := hic
  rw [hnt] at htip
  simp only [Bool.false_eq_true, if_false] at htip
  have hfalse := hasp htall
  rw [htip] at hfalse
  exact absurd hfalse (by simp)

/-- Effective `(w, d, h)` of an item in orientation `o` with spin `sp`,
following the dimension table of lines 131-150. -/
def effDims (it : Item) (o : Fin 3) (sp : Bool) : Int × Int × Int :=
  if (o : Nat) = 0 then (if sp then (it.d, it.w, it.h) else (it.w, it.d, it.h))
  else if (o : Nat) = 1 then (if sp then (it.d, it.h, it.w) else (it.h, it.d, it.w))
  else (if sp then (it.h, it.w, it.d) else (it.w, it.h, it.d))

/-- The hypothesis named by the spec for solver infeasibility: the item
fits alone on an empty pallet in some orientation that its tipping flag
and the aspect limits allow. -/
def fitsAloneSpec (it : Item) (W D H : Int) : Prop :=
  ∃ o : Fin 3, ∃ sp : Bool,
    ((o : Nat) = 0 ∨ it.allow_tipping = true) ∧
    ((o : Nat) = 0 → ¬ (3 * min it.w it.d < it.h)) ∧
    ((o : Nat) = 1 → ¬ (3 * min it.h it.d < it.w)) ∧
    ((o : Nat) = 2 → ¬ (3 * min it.w it.h < it.d)) ∧
    (effDims it o sp).1 ≤ W ∧ (effDims it o sp).2.1 ≤ D ∧ (effDims it o sp).2.2 ≤ H

instance (it : Item) (W D H : Int) : Decidable (fitsAloneSpec it W D H) := by
  unfold fitsAloneSpec effDims; infer_instance

/-- A 10 x 10 x 10 upright-only item with picking order 1. -/
def itemA : Item :=
  { id := "A-1", name := "Alpha", w := 10, d := 10, h := 10, weight := 5,
    picking_order := 1, allow_tipping := false, is_fragile := false,
    type_id := "A", location := "L1" }

/-- A 10 x 10 x 10 fragile, tippable item with picking order 2. -/
def itemB : Item :=
  { id := "B-1", name := "Beta", w := 10, d := 10, h := 10, weight := 2,
    picking_order := 2, allow_tipping := true, is_fragile := true,
    type_id := "B", location := "L2" }

/-- A 10 x 10 x 40 upright-only item: its height exceeds three times its
minimum base edge, so lines 88 and 94 post contradictory constraints. -/
def itemC : Item :=
  { id := "C-1", name := "Gamma", w := 10, d := 10, h := 40, weight := 3,
    picking_order := 1, allow_tipping := false, is_fragile := false,
    type_id := "C", location := "L3" }

/-- Solution values for `itemA`: packed upright at the origin. -/
def vA : ItemVars :=
  { is_packed := true, x := 0, y := 0, z := 0, spin := false,
    orient0 := true, orient1 := false, orient2 := false, gap_fill := false,
    current_w := 10, current_d := 10, current_h := 10, current_area := 100,
    on_ground := true }

/-- Solution values for `itemB`: packed upright directly on top of
`itemA`. -/
def vB : ItemVars := { vA with z := 10, on_ground := false }

/-- Pair variables for the ordered pair (A, B): A is below B. -/
def pAB : PairVars :=
  { left := false, right := false, behind := false, front := false,
    below := true, above := false, stacked := false,
    x_supported := false, y_supported := false,
    tol_w := 0, tol_d := 0, is_valid_base := false }

/-- Pair variables for the ordered pair (B, A): B is above A and rests on
it. -/
def pBA : PairVars :=
  { left := false, right := false, behind := false, front := false,
    below := false, above := true, stacked := false,
    x_supported := true, y_supported := true,
    tol_w := 0, tol_d := 0, is_valid_base := true }

/-- A solution of the model for `[itemA, itemB]` on a 100 x 100 x 100
pallet: A on the floor, B stacked on A. -/
def exAssign : Assign :=
  { iv := fun i => if i = 0 then vA else vB,
    pv := fun i _ => if i = 0 then pAB else pBA,
    cv := fun _ => { c_dx := 0, c_dy := 0, c_dz := 0 },
    max_z := 20 }

/-- The placed record reported for `itemA` in `exAssign`. -/
def exPlacedA : PlacedItem := placedOf itemA vA

/-- The placed record reported for `itemB` in `exAssign`. -/
def exPlacedB : PlacedItem := placedOf itemB vB

/-- Values giving an unpacked item: upright, at the origin, with the
effective dimensions equal to the original ones. -/
def idleVars (it : Item) : ItemVars :=
  { is_packed := false, x := 0, y := 0, z := 0, spin := false,
    orient0 := true, orient1 := false, orient2 := false, gap_fill := false,
    current_w := it.w, current_d := it.d, current_h := it.h,
    current_area := it.w * it.d, on_ground := true }

/-- Pair values for a pair whose first item is unpacked: every reified
literal false, tolerances as forced by the division equalities. -/
def idlePair (it : Item) : PairVars :=
  { left := false, right := false, behind := false, front := false,
    below := false, above := false, stacked := false,
    x_supported := false, y_supported := false,
    tol_w := it.w * 5 / 100, tol_d := it.d * 5 / 100, is_valid_base := false }

/-- The assignment that packs nothing. -/
def idleAssign (items : List Item) : Assign :=
  { iv := fun i => idleVars (items.getD i default),
    pv := fun i _ => idlePair (items.getD i default),
    cv := fun _ => { c_dx := 0, c_dy := 0, c_dz := 0 },
    max_z := 0 }

lemma getD_fin (items : List Item) (i : Fin items.length) :
    items.getD (i : Nat) default = items.get i := by
  simp [List.getD, List.get?_eq_get i.isLt]

/-- Containment of a placed record in the pallet volume, with the
reported effective dimensions. -/
def InBounds (W D H : Int) (p : PlacedItem) : Prop :=
  0 ≤ p.x ∧ 0 ≤ p.y ∧ 0 ≤ p.z ∧ p.x + p.w ≤ W ∧ p.y + p.d ≤ D ∧ p.z + p.h ≤ H

/-- At least one of the six axis separations of lines 172-177 holds, so
the two boxes have disjoint interiors. -/
def Separated (vi vj : ItemVars) : Prop :=
  vi.x + vi.current_w ≤ vj.x ∨ vj.x + vj.current_w ≤ vi.x ∨
  vi.y + vi.current_d ≤ vj.y ∨ vj.y + vj.current_d ≤ vi.y ∨
  vi.z + vi.current_h ≤ vj.z ∨ vj.z + vj.current_h ≤ vi.z

/-- The two footprints overlap with non-empty interior on both horizontal
axes. -/
def OverlapXY (vi vj : ItemVars) : Prop :=
  vi.x < vj.x + vj.current_w ∧ vj.x < vi.x + vi.current_w ∧
  vi.y < vj.y + vj.current_d ∧ vj.y < vi.y + vi.current_d

/-- Item `i` is on the ground or rests on some packed item `j` whose top
face is at the base of `i`, with per-axis overhang slack of at most 5% of
the supported item's effective edge. -/
def SupportedConcl (items : List Item) (a : Assign) (i : Fin items.length) : Prop :=
  (a.iv (i : Nat)).z = 0 ∨
  ∃ j : Fin items.length, (j : Nat) ≠ (i : Nat) ∧ (a.iv (j : Nat)).is_packed = true ∧
    (a.iv (i : Nat)).z = (a.iv (j : Nat)).z + (a.iv (j : Nat)).current_h ∧
    ∃ tw td : Int,
      0 ≤ tw ∧ 100 * tw ≤ 5 * (a.iv (i : Nat)).current_w ∧
      0 ≤ td ∧ 100 * td ≤ 5 * (a.iv (i : Nat)).current_d ∧
      (a.iv (j : Nat)).x - tw ≤ (a.iv (i : Nat)).x ∧
      (a.iv (i : Nat)).x + (a.iv (i : Nat)).current_w ≤
        (a.iv (j : Nat)).x + (a.iv (j : Nat)).current_w + tw ∧
      (a.iv (j : Nat)).y - td ≤ (a.iv (i : Nat)).y ∧
      (a.iv (i : Nat)).y + (a.iv (i : Nat)).current_d ≤
        (a.iv (j : Nat)).y + (a.iv (j : Nat)).current_d + td

lemma feasible_packed_inbounds (items : List Item) (W D H : Int) (a : Assign)
    (hfeas : Feasible items W D H a) (i : Fin items.length)
    (hp : (a.iv (i : Nat)).is_packed = true) :
    InBounds W D H (placedOf (items.get i) (a.iv (i : Nat))) := by
  obtain ⟨hmz, hitems, hpairs⟩ := hfeas
  obtain ⟨hic, hdim, hbound, hclu, hsupp⟩ := hitems i
  obtain ⟨hx, hy, hz, _⟩ := hic
  obtain ⟨b1, b2, b3, _⟩ := hbound hp
  exact ⟨hx.1, hy.1, hz.1, b1, b2, b3⟩

lemma rel_placed_inbounds (items : List Item) (W D H : Int)
    (res : List PlacedItem × List Nat)
    (hrel : solve_single_pallet_rel items W D H res) :
    ∀ p ∈ res.1, InBounds W D H p := by
  intro p hp
  rcases hrel with ⟨a, hfeas, heq⟩ | heq
  · subst heq
    obtain ⟨i, hpk, hpe⟩ := mem_extractResult items a p hp
    rw [hpe]
    exact feasible_packed_inbounds items W D H a hfeas i hpk
  · subst heq
    simp at hp

lemma runs_placed_inbounds (W D H : Int) {rem : List Item} {k : Nat}
    {out : List Pallet} {fin : List Item} (hrun : Runs W D H rem k out fin) :
    ∀ pal ∈ out, ∀ p ∈ pal.items, InBounds W D H p := by
  induction hrun with
  | done k => simp
  | crit rem k u hne hrel => simp
  | step rem k p u out fin hne hrel hpne hrun ih =>
    intro pal hpal q hq
    rcases List.mem_cons.mp hpal with heq | hmem
    · subst heq
      exact rel_placed_inbounds rem W D H (p, u) hrel q (by simpa using hq)
    · exact ih pal hmem q hq

/-- C1: every item placed by `solve_single_pallet` satisfies
`0 ≤ x, y, z` and `x + w ≤ W`, `y + d ≤ D`, `z + h ≤ H` for its reported
effective dimensions, and consequently so does every item on every pallet
produced by the `solve_multiple_pallets` loop. -/
theorem containment_C1 :
    (∀ (items : List Item) (W D H : Int) (res : List PlacedItem × List Nat),
      solve_single_pallet_rel items W D H res → ∀ p ∈ res.1, InBounds W D H p) ∧
    (∀ (W D H : Int) (rem : List Item) (k : Nat) (out : List Pallet)
      (fin : List Item), Runs W D H rem k out fin →
      ∀ pal ∈ out, ∀ p ∈ pal.items, InBounds W D H p) :=
  ⟨fun items W D H res hrel => rel_placed_inbounds items W D H res hrel,
   fun W D H _ _ _ _ hrun => runs_placed_inbounds W D H hrun⟩

/-- Witness for C1: the record reported for `itemA` in the concrete
two-item solve lies inside the 100 x 100 x 100 pallet. -/
theorem containment_C1_witness : InBounds 100 100 100 exPlacedA :=
  containment_C1.1 [itemA, itemB] 100 100 100 (extractResult [itemA, itemB] exAssign)
    (Or.inl ⟨exAssign, by decide, rfl⟩) exPlacedA (by decide)

/-- C2: any two distinct packed items of a feasible solution satisfy at
least one of the six axis separations, so their boxes have disjoint
interiors; every packed item is indeed part of the returned placed
output. -/
theorem nonoverlap_C2 :
    ∀ (items : List Item) (W D H : Int) (a : Assign), Feasible items W D H a →
    ∀ i j : Fin items.length, (i : Nat) ≠ (j : Nat) →
    (a.iv (i : Nat)).is_packed = true → (a.iv (j : Nat)).is_packed = true →
    Separated (a.iv (i : Nat)) (a.iv (j : Nat)) ∧
    placedOf (items.get i) (a.iv (i : Nat)) ∈ (extractResult items a).1 := by
  intro items W D H a hfeas i j hne hpi hpj
  obtain ⟨hmz, hitems, hpairs⟩ := hfeas
  obtain ⟨hsep, _, _⟩ := hpairs i j hne
  obtain ⟨hl, hr, hb, hf, hbe, hab, hor⟩ := hsep
  constructor
  · rcases hor hpi hpj with h | h | h | h | h | h
    · exact Or.inl (hl h)
    · exact Or.inr (Or.inl (hr h))
    · exact Or.inr (Or.inr (Or.inl (hb h)))
    · exact Or.inr (Or.inr (Or.inr (Or.inl (hf h))))
    · exact Or.inr (Or.inr (Or.inr (Or.inr (Or.inl (hbe h)))))
    · exact Or.inr (Or.inr (Or.inr (Or.inr (Or.inr (hab h)))))
  · exact packed_mem_extractResult items a i hpi

/-- Witness for C2 at the concrete stacked pair: A and B are separated
(A is below B). -/
theorem nonoverlap_C2_witness :
    Separated (exAssign.iv 0) (exAssign.iv 1) ∧
    placedOf ([itemA, itemB].get ⟨0, by decide⟩) (exAssign.iv 0) ∈
      (extractResult [itemA, itemB] exAssign).1 :=
  nonoverlap_C2 [itemA, itemB] 100 100 100 exAssign (by decide)
    ⟨0, by decide⟩ ⟨1, by decide⟩ (by decide) (by decide) (by decide)

/-- C3: every packed item of a feasible solution is on the ground
(`z = 0`) or rests on another packed item: bases coplanar with the
supporter's top face and footprint within the supporter's top face up to
a slack of at most 5% of the supported item's effective edge per axis. -/
theorem support_C3 :
    ∀ (items : List Item) (W D H : Int) (a : Assign), Feasible items W D H a →
    ∀ i : Fin items.length, (a.iv (i : Nat)).is_packed = true →
    SupportedConcl items a i := by
  intro items W D H a hfeas i hpi
  obtain ⟨hmz, hitems, hpairs⟩ := hfeas
  obtain ⟨hic, hdim, hbound, hclu, hsupp⟩ := hitems i
  obtain ⟨hog, hclose⟩ := hsupp
  rcases hclose hpi with hg | ⟨j, hjne, hvb⟩
  · exact Or.inl (hog hg)
  · have hne : (i : Nat) ≠ (j : Nat) := fun hh => hjne hh.symm
    obtain ⟨hsep, hord, hsup⟩ := hpairs i j hne
    obtain ⟨htwdom, htddom, htweq, htdeq, hxs, hys, hvbimp⟩ := hsup
    obtain ⟨hab, hxst, hyst, hzeq, hpj⟩ := hvbimp hvb
    obtain ⟨hx1, hx2⟩ := hxs hxst
    obtain ⟨hy1, hy2⟩ := hys hyst
    obtain ⟨⟨hcw0, _⟩, ⟨hcd0, _⟩, _⟩ := hdim.1
    refine Or.inr ⟨j, hjne, hpj, hzeq,
      (a.pv (i : Nat) (j : Nat)).tol_w, (a.pv (i : Nat) (j : Nat)).tol_d,
      htwdom.1, ?_, htddom.1, ?_, hx1, hx2, hy1, hy2⟩
    · omega
    · omega

/-- Witness for C3 at the concrete stacked pair: B (packed at z = 10)
rests on the packed item A. -/
theorem support_C3_witness :
    SupportedConcl [itemA, itemB] exAssign ⟨1, by decide⟩ :=
  support_C3 [itemA, itemB] 100 100 100 exAssign (by decide) ⟨1, by decide⟩ (by decide)

/-- C5: in any feasible solution over items with positive dimensions, an
item with strictly smaller picking order is never resting at or above the
top face of an item with larger picking order while their footprints
overlap: it cannot sit above it in any support relation. -/
theorem picking_C5 :
    ∀ (items : List Item) (W D H : Int) (a : Assign), Feasible items W D H a →
    (∀ it ∈ items, 0 < it.w ∧ 0 < it.d ∧ 0 < it.h) →
    ∀ i j : Fin items.length, (i : Nat) ≠ (j : Nat) →
    (a.iv (i : Nat)).is_packed = true → (a.iv (j : Nat)).is_packed = true →
    (items.get i).picking_order < (items.get j).picking_order →
    ¬ (OverlapXY (a.iv (i : Nat)) (a.iv (j : Nat)) ∧
      (a.iv (j : Nat)).z + (a.iv (j : Nat)).current_h ≤ (a.iv (i : Nat)).z) := by
  intro items W D H a hfeas hpos i j hne hpi hpj hpick
  rintro ⟨⟨ho1, ho2, ho3, ho4⟩, habz⟩
  obtain ⟨hmz, hitems, hpairs⟩ := hfeas
  obtain ⟨hici, hdimi, _⟩ := hitems i
  obtain ⟨hicj, hdimj, _⟩ := hitems j
  have hmemi : items.get i ∈ items := List.get_mem items i.val i.isLt
  have hmemj : items.get j ∈ items := List.get_mem items j.val j.isLt
  obtain ⟨hwi, hdi, hhi⟩ := hpos (items.get i) hmemi
  obtain ⟨hwj, hdj, hhj⟩ := hpos (items.get j) hmemj
  obtain ⟨_, _, hchi⟩ := current_pos (items.get i) (a.iv (i : Nat)) hdimi
    (some_orient (a.iv (i : Nat)) (hici.2.2.2.1 hpi)) hwi hdi hhi
  obtain ⟨_, _, hchj⟩ := current_pos (items.get j) (a.iv (j : Nat)) hdimj
    (some_orient (a.iv (j : Nat)) (hicj.2.2.2.1 hpj)) hwj hdj hhj
  obtain ⟨hsep, hord, _⟩ := hpairs i j hne
  obtain ⟨hl, hr, hb, hf, hbe, hab, hor⟩ := hsep
  have habf := hord.1 hpick
  rcases hor hpi hpj with h | h | h | h | h | h
  · have := hl h; omega
  · have := hr h; omega
  · have := hb h; omega
  · have := hf h; omega
  · have := hbe h; omega
  · rw [habf] at h; exact absurd h (by simp)

/-- Witness for C5 at the concrete stacked pair: A (picking order 1) is
not above B (picking order 2). -/
theorem picking_C5_witness :
    ¬ (OverlapXY (exAssign.iv 0) (exAssign.iv 1) ∧
      (exAssign.iv 1).z + (exAssign.iv 1).current_h ≤ (exAssign.iv 0).z) :=
  picking_C5 [itemA, itemB] 100 100 100 exAssign (by decide) (by decide)
    ⟨0, by decide⟩ ⟨1, by decide⟩ (by decide) (by decide) (by decide) (by decide)

/-- C6: in any feasible solution over items with positive dimensions, no
packed item sits at or above the top face of a packed fragile item with
overlapping footprint: nothing is placed above a fragile item and a
fragile item is never below another. -/
theorem fragile_C6 :
    ∀ (items : List Item) (W D H : Int) (a : Assign), Feasible items W D H a →
    (∀ it ∈ items, 0 < it.w ∧ 0 < it.d ∧ 0 < it.h) →
    ∀ i j : Fin items.length, (i : Nat) ≠ (j : Nat) →
    (items.get i).is_fragile = true →
    (a.iv (i : Nat)).is_packed = true → (a.iv (j : Nat)).is_packed = true →
    ¬ (OverlapXY (a.iv (i : Nat)) (a.iv (j : Nat)) ∧
      (a.iv (i : Nat)).z + (a.iv (i : Nat)).current_h ≤ (a.iv (j : Nat)).z) := by
  intro items W D H a hfeas hpos i j hne hfr hpi hpj
  rintro ⟨⟨ho1, ho2, ho3, ho4⟩, hbelz⟩
  obtain ⟨hmz, hitems, hpairs⟩ := hfeas
  obtain ⟨hici, hdimi, _⟩ := hitems i
  obtain ⟨hicj, hdimj, _⟩ := hitems j
  have hmemi : items.get i ∈ items := List.get_mem items i.val i.isLt
  have hmemj : items.get j ∈ items := List.get_mem items j.val j.isLt
  obtain ⟨hwi, hdi, hhi⟩ := hpos (items.get i) hmemi
  obtain ⟨hwj, hdj, hhj⟩ := hpos (items.get j) hmemj
  obtain ⟨_, _, hchi⟩ := current_pos (items.get i) (a.iv (i : Nat)) hdimi
    (some_orient (a.iv (i : Nat)) (hici.2.2.2.1 hpi)) hwi hdi hhi
  obtain ⟨_, _, hchj⟩ := current_pos (items.get j) (a.iv (j : Nat)) hdimj
    (some_orient (a.iv (j : Nat)) (hicj.2.2.2.1 hpj)) hwj hdj hhj
  obtain ⟨hsep, hord, _⟩ := hpairs i j hne
  obtain ⟨hl, hr, hb, hf, hbe, hab, hor⟩ := hsep
  have hbelf := hord.2.2.2.1 hfr
  rcases hor hpi hpj with h | h | h | h | h | h
  · have := hl h; omega
  · have := hr h; omega
  · have := hb h; omega
  · have := hf h; omega
  · rw [hbelf] at h; exact absurd h (by simp)
  · have := hab h; omega

/-- Witness for C6 at the concrete stacked pair: nothing rests at or
above the top face of the fragile item B. -/
theorem fragile_C6_witness :
    ¬ (OverlapXY (exAssign.iv 1) (exAssign.iv 0) ∧
      (exAssign.iv 1).z + (exAssign.iv 1).current_h ≤ (exAssign.iv 0).z) :=
  fragile_C6 [itemA, itemB] 100 100 100 exAssign (by decide) (by decide)
    ⟨1, by decide⟩ ⟨0, by decide⟩ (by decide) (by decide) (by decide) (by decide)

/-- C7: a packed item with `allow_tipping = false` is reported with
`tipped = false`, effective height equal to its original height, and
effective horizontal dimensions a permutation of the original `(w, d)`;
in general the reported `tipped` flag is true exactly when the chosen
orientation is not the upright one. -/
theorem upright_C7 :
    ∀ (items : List Item) (W D H : Int) (a : Assign), Feasible items W D H a →
    ∀ i : Fin items.length, (a.iv (i : Nat)).is_packed = true →
    ((items.get i).allow_tipping = false →
      (placedOf (items.get i) (a.iv (i : Nat))).tipped = false ∧
      (a.iv (i : Nat)).current_h = (items.get i).h ∧
      (((a.iv (i : Nat)).current_w = (items.get i).w ∧
        (a.iv (i : Nat)).current_d = (items.get i).d) ∨
       ((a.iv (i : Nat)).current_w = (items.get i).d ∧
        (a.iv (i : Nat)).current_d = (items.get i).w))) ∧
    ((placedOf (items.get i) (a.iv (i : Nat))).tipped = true ↔
      ((a.iv (i : Nat)).orient1 = true ∨ (a.iv (i : Nat)).orient2 = true)) := by
  intro items W D H a hfeas i hpi
  obtain ⟨hmz, hitems, _⟩ := hfeas
  obtain ⟨hic, hdim, _⟩ := hitems i
  obtain ⟨_, _, _, hsum, htip, _, _⟩ := hic
  obtain ⟨_, hm0, hm1, hm2⟩ := hdim
  have hsum2 := hsum hpi
  constructor
  · intro hnt
    rw [hnt] at htip
    simp only [Bool.false_eq_true, if_false] at htip
    obtain ⟨r1, r2, r3⟩ := hm0
    refine ⟨?_, (r3 htip).1, ?_⟩
    · simp [placedOf, htip]
    · cases hs : (a.iv (i : Nat)).spin
      · exact Or.inl (r1 htip hs)
      · exact Or.inr (r2 htip hs)
  · simp only [placedOf]
    cases h0 : (a.iv (i : Nat)).orient0 <;>
      cases h1 : (a.iv (i : Nat)).orient1 <;>
      cases h2 : (a.iv (i : Nat)).orient2 <;> simp_all

/-- Witness for C7 at the upright-only item A in the concrete solve. -/
theorem upright_C7_witness :
    (itemA.allow_tipping = false →
      (placedOf itemA (exAssign.iv 0)).tipped = false ∧
      (exAssign.iv 0).current_h = itemA.h ∧
      (((exAssign.iv 0).current_w = itemA.w ∧ (exAssign.iv 0).current_d = itemA.d) ∨
       ((exAssign.iv 0).current_w = itemA.d ∧ (exAssign.iv 0).current_d = itemA.w))) ∧
    ((placedOf itemA (exAssign.iv 0)).tipped = true ↔
      ((exAssign.iv 0).orient1 = true ∨ (exAssign.iv 0).orient2 = true)) :=
  upright_C7 [itemA, itemB] 100 100 100 exAssign (by decide) ⟨0, by decide⟩ (by decide)

/-- C4: when the driver loop ends with the remaining list empty (no
critical failure), the multiset of item ids across all returned pallets
equals the multiset of input item ids: every input item is placed exactly
once and nothing else appears. -/
theorem completeness_C4 :
    ∀ (items : List Item) (W D H : Int) (out : List Pallet) (fin : List Item),
    Runs W D H (sortItems items) 1 out fin → fin = [] →
    List.Perm (palletIds out) (itemIds items) := by
  intro items W D H out fin hrun hfin
  rw [hfin] at hrun
  have h1 := runs_ids_perm W D H hrun
  simp only [itemIds, List.map_nil, List.append_nil] at h1
  exact h1.trans ((List.perm_insertionSort keyLe items).map _)

/-- Witness for C4: a complete run on `[itemA, itemB]` packs both on one
pallet, and the ids on that pallet are a permutation of the input ids. -/
theorem completeness_C4_witness :
    List.Perm (palletIds [{ pallet_id := 1, items := [exPlacedA, exPlacedB] }])
      (itemIds [itemA, itemB]) := by
  refine completeness_C4 [itemA, itemB] 100 100 100
    [{ pallet_id := 1, items := [exPlacedA, exPlacedB] }] [] ?_ rfl
  have hsort : sortItems [itemA, itemB] = [itemA, itemB] := by decide
  rw [hsort]
  have hrel : solve_single_pallet_rel [itemA, itemB] 100 100 100
      ([exPlacedA, exPlacedB], []) :=
    Or.inl ⟨exAssign, by decide, by decide⟩
  have hnext : Runs 100 100 100 (select [itemA, itemB] []) 2 [] [] := by
    show Runs 100 100 100 [] 2 [] []
    exact Runs.done 2
  exact Runs.step [itemA, itemB] 1 [exPlacedA, exPlacedB] [] [] []
    (by decide) hrel (by decide) hnext

/-- C10: the driver first reorders the caller's list into `sortItems
items` (picking order ascending, base area descending, name ascending,
compared lexicographically), which is a permutation of the same `Item`
values; and the remaining list fed to each subsequent solve is a sublist
of the current one, so the sorted relative order is preserved. -/
theorem presort_C10 :
    ∀ (items rem : List Item) (W D H : Int) (res : List PlacedItem × List Nat),
    List.Perm (sortItems items) items ∧
    List.Sorted keyLe (sortItems items) ∧
    (solve_single_pallet_rel rem W D H res → List.Sublist (select rem res.2) rem) := by
  intro items rem W D H res
  refine ⟨List.perm_insertionSort keyLe items, List.sorted_insertionSort keyLe items, ?_⟩
  intro hrel
  rcases hrel with ⟨a, hfeas, heq⟩ | heq
  · have hu : res.2 = (extractGo a 0 rem).2 := by
      rw [heq]; rfl
    rw [hu, select_extractGo a rem rem 0 (fun k => by simp)]
    exact unpackedGo_sublist a rem 0
  · have hu : res.2 = List.range rem.length := by rw [heq]
    rw [hu, select_range rem]

/-- Witness for C10 at concrete data: sorting `[itemB, itemA]` (picking
orders 2 and 1) gives a sorted permutation, and the zero-placement result
keeps the remaining list unchanged, a sublist of itself. -/
theorem presort_C10_witness :
    List.Perm (sortItems [itemB, itemA]) [itemB, itemA] ∧
    List.Sorted keyLe (sortItems [itemB, itemA]) ∧
    List.Sublist (select [itemA, itemB] (List.range 2)) [itemA, itemB] := by
  obtain ⟨h1, h2, h3⟩ :=
    presort_C10 [itemB, itemA] [itemA, itemB] 100 100 100
      (([] : List PlacedItem), List.range 2)
  exact ⟨h1, h2, h3 (Or.inr rfl)⟩

/-- C8 counterexample: `itemA` fits alone on the 100 x 100 x 100 pallet
in its allowed upright orientation, yet the model for `[itemA, itemC]` is
infeasible: `itemC` has `allow_tipping = false` and `h = 40 > 3 * 10`, so
line 88 posts `orient0 = 1` while line 94 posts `orient0 = 0`. -/
theorem infeasibility_C8_counterexample :
    fitsAloneSpec itemA 100 100 100 ∧
    ∀ a : Assign, ¬ Feasible [itemA, itemC] 100 100 100 a := by
  refine ⟨by decide, ?_⟩
  exact not_feasible_of_upright_conflict [itemA, itemC] 100 100 100
    ⟨1, by decide⟩ (by decide) (by decide)

/-- C8 amended: infeasibility is not limited to inputs that cannot fit.
Whenever no item triggers the aspect-limit constraint (every item has
`h ≤ 3 * min w d`, so no contradictory or forced-packing orientation
constraint is posted) and item footprints are within the pallet, the
model is feasible: the assignment that packs nothing satisfies every
constraint.  The solver may therefore also report zero placements for a
feasible model. -/
theorem infeasibility_C8_amended :
    ∀ (items : List Item) (W D H : Int),
    0 ≤ W → 0 ≤ D → 0 ≤ H →
    (∀ it ∈ items, 0 ≤ it.w ∧ 0 ≤ it.d ∧ 0 ≤ it.h ∧
      it.h ≤ 3 * min it.w it.d ∧ it.w ≤ W ∧ it.d ≤ D) →
    ∃ a : Assign, Feasible items W D H a := by
  intro items W D H hW hD hH hitems
  refine ⟨idleAssign items, ⟨by simp [idleAssign], by simp [idleAssign, hH]⟩, ?_, ?_⟩
  · intro i
    have hmem : items.get i ∈ items := List.get_mem items i.val i.isLt
    obtain ⟨hw0, hd0, hh0, hasp, hwW, hdD⟩ := hitems (items.get i) hmem
    have hiv : (idleAssign items).iv (i : Nat) = idleVars (items.get i) := by
      simp [idleAssign, getD_fin]
    refine ⟨?_, ?_, ?_, ?_, ?_⟩
    · -- itemCons
      rw [hiv]
      unfold itemCons idleVars
      refine ⟨⟨le_refl 0, hW⟩, ⟨le_refl 0, hD⟩, ⟨le_refl 0, hH⟩, ?_, ?_, ?_, ?_⟩
      · intro h; simp at h
      · cases ht : (items.get i).allow_tipping <;> simp
      · intro h; omega
      · intro _; exact ⟨fun _ => rfl, fun _ => rfl⟩
    · -- dimCons
      rw [hiv]
      unfold dimCons dimDomCons dimMapCons dimMap0Cons dimMap1Cons dimMap2Cons idleVars
      refine ⟨⟨⟨hw0, ?_⟩, ⟨hd0, ?_⟩, ⟨hh0, ?_⟩, ?_, ?_⟩, ?_, ?_, ?_⟩
      · exact le_max_left _ _
      · exact le_trans (le_max_left _ _) (le_max_right _ _)
      · exact le_trans (le_max_right _ _) (le_max_right _ _)
      · exact min_le_left _ _
      · exact le_max_left _ _
      · exact ⟨fun _ _ => ⟨rfl, rfl⟩, fun _ h => by simp at h, fun _ => ⟨rfl, rfl⟩⟩
      · exact ⟨fun h => by simp at h, fun h => by simp at h, fun h => by simp at h⟩
      · exact ⟨fun h => by simp at h, fun h => by simp at h, fun h => by simp at h⟩
    · -- boundCons
      rw [hiv]
      intro h; simp [idleVars] at h
    · -- clustering
      cases hls : lastSeen items i with
      | none => exact trivial
      | some prev =>
        show clusterCons W D H _ _ _
        rw [hiv]
        refine ⟨⟨le_refl 0, hW⟩, ⟨le_refl 0, hD⟩, ⟨le_refl 0, hH⟩, ?_⟩
        intro h; simp [idleVars] at h
    · -- supportClose
      constructor
      · intro _; rw [hiv]; rfl
      · intro h; rw [hiv] at h; simp [idleVars] at h
  · intro i j hne
    have hmemi : items.get i ∈ items := List.get_mem items i.val i.isLt
    obtain ⟨hwi0, hdi0, _, _, hwiW, hdiD⟩ := hitems (items.get i) hmemi
    have hiv : (idleAssign items).iv (i : Nat) = idleVars (items.get i) := by
      simp [idleAssign, getD_fin]
    have hpv : (idleAssign items).pv (i : Nat) (j : Nat) = idlePair (items.get i) := by
      simp [idleAssign, getD_fin]
    rw [hiv, hpv]
    refine ⟨?_, ?_, ?_⟩
    · -- sepCons: all literals false, both items unpacked
      refine ⟨?_, ?_, ?_, ?_, ?_, ?_, ?_⟩
      · intro h; exact absurd h (by simp [idlePair])
      · intro h; exact absurd h (by simp [idlePair])
      · intro h; exact absurd h (by simp [idlePair])
      · intro h; exact absurd h (by simp [idlePair])
      · intro h; exact absurd h (by simp [idlePair])
      · intro h; exact absurd h (by simp [idlePair])
      · intro h; exact absurd h (by simp [idleVars])
    · -- orderCons
      refine ⟨fun _ => rfl, fun _ => rfl, fun _ => rfl, fun _ => rfl, fun _ => ?_⟩
      exact ⟨fun h => by simp [idlePair] at h, fun _ => rfl⟩
    · -- suppCons
      unfold suppCons
      dsimp only [idlePair, idleVars]
      refine ⟨⟨?_, ?_⟩, ⟨?_, ?_⟩, rfl, rfl, ?_, ?_, ?_⟩
      · omega
      · omega
      · omega
      · omega
      · intro h; simp at h
      · intro h; simp at h
      · intro h; simp at h

/-- Witness for the amended C8 at concrete data: the model for
`[itemA, itemB]` is feasible. -/
theorem infeasibility_C8_amended_witness :
    ∃ a : Assign, Feasible [itemA, itemB] 100 100 100 a :=
  infeasibility_C8_amended [itemA, itemB] 100 100 100 (by decide) (by decide)
    (by decide) (by decide)

/-- C9 counterexample: on the single unplaceable item `itemC` the model
is infeasible, so the solver necessarily returns zero placements, the
driver breaks on its first iteration, and the entire return value of
`solve_multiple_pallets` is the empty pallet list.  No list of
unplaceable item ids exists anywhere in the returned value; the dropped
item is only visible in the ghost final-remaining list. -/
theorem surface_C9_counterexample :
    (∀ a : Assign, ¬ Feasible [itemC] 100 100 100 a) ∧
    (∀ (out : List Pallet) (fin : List Item),
      Runs 100 100 100 (sortItems [itemC]) 1 out fin →
      out = [] ∧ fin = [itemC] ∧ palletIds out = []) := by
  have hinf : ∀ a : Assign, ¬ Feasible [itemC] 100 100 100 a :=
    not_feasible_of_upright_conflict [itemC] 100 100 100
      ⟨0, by decide⟩ (by decide) (by decide)
  refine ⟨hinf, ?_⟩
  intro out fin hrun
  have hsort : sortItems [itemC] = [itemC] := by decide
  rw [hsort] at hrun
  cases hrun with
  | crit rem k u hne hrel => exact ⟨rfl, rfl, rfl⟩
  | step rem k p u out fin hne hrel hpne hnext =>
    rcases hrel with ⟨a, hfeas, _⟩ | heq
    · exact absurd hfeas (hinf a)
    · exact absurd (by simpa using congrArg Prod.fst heq) hpne

/-- C9 amended: when the solver returns zero placements while items
remain, `solve_multiple_pallets` returns only the pallet list built so
far; the unplaceable items are dropped from the return value, and their
ids together with the ids on the returned pallets account exactly for
the input multiset. -/
theorem surface_C9_amended :
    ∀ (items : List Item) (W D H : Int) (out : List Pallet) (fin : List Item),
    Runs W D H (sortItems items) 1 out fin → fin ≠ [] →
    List.Perm (palletIds out ++ itemIds fin) (itemIds items) := by
  intro items W D H out fin hrun hne
  exact (runs_ids_perm W D H hrun).trans ((List.perm_insertionSort keyLe items).map _)

/-- Witness for the amended C9 at the concrete unplaceable item: the run
breaks immediately, returns no pallets, and the dropped id together with
the empty output accounts for the input. -/
theorem surface_C9_amended_witness :
    List.Perm (palletIds [] ++ itemIds [itemC]) (itemIds [itemC]) := by
  refine surface_C9_amended [itemC] 100 100 100 [] [itemC] ?_ (by decide)
  have hsort : sortItems [itemC] = [itemC] := by decide
  rw [hsort]
  exact Runs.crit [itemC] 1 [0] (by decide) (Or.inr (by decide))
